import Mathlib

/-!
Verification of the Gauhati High Court causelist parser.

The parser's core (header detection, record segmentation, case-identifier
extraction, party/advocate classification) is shallowly embedded below as
computable functions over `List Char`.  Strings are modelled as ASCII
character lists; Python's `\d`, `\s`, `str.upper`, `str.strip` are modelled
over the ASCII range.
-/

namespace Causelist

/-- ASCII model of Python's regex class `\d`. -/
def isDigitChar (c : Char) : Bool := 48 ≤ c.toNat && c.toNat ≤ 57

/-- ASCII model of Python's regex class `\s` (space, tab, LF, CR, VT, FF). -/
def isSpaceChar (c : Char) : Bool :=
  c.toNat = 32 || c.toNat = 9 || c.toNat = 10 || c.toNat = 13 || c.toNat = 11 || c.toNat = 12

/-- ASCII uppercase letter, the regex class `[A-Z]`. -/
def isUpperChar (c : Char) : Bool := 65 ≤ c.toNat && c.toNat ≤ 90

/-- ASCII lowercase letter. -/
def isLowerChar (c : Char) : Bool := 97 ≤ c.toNat && c.toNat ≤ 122

/-- ASCII letter, the regex class `[A-Za-z]`. -/
def isAlphaChar (c : Char) : Bool := isUpperChar c || isLowerChar c

/-- ASCII model of Python's `str.upper` on a single character. -/
def toUpperChar (c : Char) : Char :=
  if 97 ≤ c.toNat && c.toNat ≤ 122 then Char.ofNat (c.toNat - 32) else c

/-- View a Lean string literal as the character list it denotes. -/
def str (s : String) : List Char := s.data

/-- The sentinel value `"N/A"` used by the parser for unrecoverable fields. -/
def naStr : List Char := str "N/A"

/-- Python's `str.lstrip()` (ASCII whitespace). -/
def lstrip (l : List Char) : List Char := l.dropWhile isSpaceChar

/-- Python's `str.rstrip()` (ASCII whitespace). -/
def rstrip (l : List Char) : List Char := (l.reverse.dropWhile isSpaceChar).reverse

/-- Python's `str.strip()` (ASCII whitespace). -/
def strip (l : List Char) : List Char := rstrip (lstrip l)

/-- Python's `str.upper()` (ASCII). -/
def upperStr (l : List Char) : List Char := l.map toUpperChar

/-- Whether `p` is a prefix of `l`, as a boolean. -/
def startsWithB : List Char → List Char → Bool
  | [], _ => true
  | _ :: _, [] => false
  | a :: as, b :: bs => decide (a = b) && startsWithB as bs

/-- Python's `needle in hay` substring test. -/
def containsSub (needle : List Char) : List Char → Bool
  | [] => needle.isEmpty
  | c :: t => startsWithB needle (c :: t) || containsSub needle t

/-- Python's `s.split(sep, 1)`: the text before and after the first occurrence
of `sep` (when `sep` does not occur, the whole text is the first component). -/
def splitFirst (sep : List Char) : List Char → List Char × List Char
  | [] => ([], [])
  | c :: t =>
    if startsWithB sep (c :: t) then ([], (c :: t).drop sep.length)
    else
      let p := splitFirst sep t
      (c :: p.1, p.2)

/-- Python's `s.split('\n')`. -/
def splitNl : List Char → List (List Char)
  | [] => [[]]
  | c :: t =>
    if c = '\n' then [] :: splitNl t
    else
      match splitNl t with
      | h :: r => (c :: h) :: r
      | [] => [[c]]

/-- Python's `'\n'.join(ls)`. -/
def joinNl : List (List Char) → List Char
  | [] => []
  | [l] => l
  | l :: ls => l ++ '\n' :: joinNl ls

/-- Python's `' '.join(ls)`. -/
def joinSp : List (List Char) → List Char
  | [] => []
  | [l] => l
  | l :: ls => l ++ ' ' :: joinSp ls

/-- Fuelled worker for `replaceAll`; each step consumes at least one character
of the subject, so `s.length` fuel suffices. -/
def replaceAllGo (old : List Char) : Nat → List Char → List Char
  | 0, s => s
  | _ + 1, [] => []
  | fuel + 1, c :: t =>
    if startsWithB old (c :: t) then replaceAllGo old fuel ((c :: t).drop old.length)
    else c :: replaceAllGo old fuel t

/-- Python's `s.replace(old, '')`: removes every (non-overlapping, leftmost)
occurrence of `old` from `s`. -/
def replaceAll (old s : List Char) : List Char := replaceAllGo old s.length s

/-- Python's `re.sub(r'^\d+\s+', '', s)`: strips a leading run of digits
followed by a run of whitespace, when both are present. -/
def subLeadingSr (s : List Char) : List Char :=
  let d := s.takeWhile isDigitChar
  if d.isEmpty then s
  else
    let r := s.dropWhile isDigitChar
    if (r.takeWhile isSpaceChar).isEmpty then s else r.dropWhile isSpaceChar

/-- Python's `re.match(r'^(\d+)\s', s)`: a leading run of digits followed by a
whitespace character; returns the digit group on success. -/
def srMatch (s : List Char) : Option (List Char) :=
  let d := s.takeWhile isDigitChar
  if d.isEmpty then none
  else
    match s.dropWhile isDigitChar with
    | c :: _ => if isSpaceChar c then some d else none
    | [] => none

/-- A line holding all three column-header markers (`parse_gauhati_causelist`,
header scan). -/
def isHeaderLine (l : List Char) : Bool :=
  containsSub (str "Sr.No") l && containsSub (str "Case Number") l &&
    containsSub (str "Main Parties") l

/-- The lines strictly after the first header line, or `none` when no line is
a header line. -/
def headerSplit : List (List Char) → Option (List (List Char))
  | [] => none
  | l :: rest => if isHeaderLine l then some rest else headerSplit rest

/-- The separator token the initial skip looks for (`'---' in lines[i]`). -/
def sepTok : List Char := str "---"

/-- The initial separator skip after the header: drops the leading lines that
contain the substring `---`. -/
def skipSeps (ls : List (List Char)) : List (List Char) :=
  ls.dropWhile (fun l => containsSub sepTok l)

/-- Python's `s.replace('-', '')`. -/
def removeDash (l : List Char) : List Char := l.filter (fun c => !decide (c = '-'))

/-- The inner collection loop of the record segmenter: starting from the lines
after a record-opening line, gather the record's continuation lines into `acc`
until the next record opener or a section break, skipping pure-separator and
blank lines.  Returns the collected lines and the unconsumed remainder. -/
def collect (acc : List (List Char)) : List (List Char) → List (List Char) × List (List Char)
  | [] => (acc, [])
  | l :: rest =>
    if (srMatch (lstrip l)).isSome then (acc, l :: rest)
    else if containsSub (str "===") l || containsSub (str "LEAVE NOTE") l then (acc, l :: rest)
    else if !(strip l).isEmpty && (strip (removeDash (strip l))).isEmpty then collect acc rest
    else if !(strip l).isEmpty then collect (acc ++ [l]) rest
    else collect acc rest

/-- The outer loop of the record segmenter, fuelled (one unit of fuel per
outer iteration; the line count is always enough fuel).  Produces, per record,
the matched sequence number and the record's lines. -/
def segLoop : Nat → List (List Char) → List (List Char × List (List Char))
  | 0, _ => []
  | _ + 1, [] => []
  | fuel + 1, l :: rest =>
    match srMatch (lstrip l) with
    | some sr =>
      let pr := collect [l] rest
      (sr, pr.1) :: segLoop fuel pr.2
    | none => segLoop fuel rest

/-- Record segmentation of a document's lines: locate the header, skip the
following `---` lines, then run the segmenter state machine. -/
def segsOfLines (lines : List (List Char)) : List (List Char × List (List Char)) :=
  match headerSplit lines with
  | none => []
  | some after => segLoop (skipSeps after).length (skipSeps after)

/-- A case-identifier match: the whole matched substring and its three groups
(type, number, year). -/
structure CaseM where
  g0 : List Char
  ty : List Char
  num : List Char
  yr : List Char
deriving DecidableEq

/-- The optional group `(?:\([A-Z]\))?` of the primary case pattern: the
matched text and the remainder. -/
def optParenUpper (l : List Char) : List Char × List Char :=
  match l with
  | '(' :: c :: ')' :: rest =>
    if isUpperChar c then ('(' :: c :: ')' :: [], rest) else ([], l)
  | _ => ([], l)

/-- The optional group `(?:\.[A-Z]+)?` of the primary case pattern. -/
def optDotUpper (l : List Char) : List Char × List Char :=
  match l with
  | '.' :: rest =>
    let u := rest.takeWhile isUpperChar
    if u.isEmpty then ([], l) else ('.' :: u, rest.dropWhile isUpperChar)
  | _ => ([], l)

/-- The optional group `(?:\([A-Za-z]+\))?` of the primary case pattern. -/
def optParenWord (l : List Char) : List Char × List Char :=
  match l with
  | '(' :: rest =>
    let w := rest.takeWhile isAlphaChar
    if w.isEmpty then ([], l)
    else
      match rest.dropWhile isAlphaChar with
      | ')' :: r2 => ('(' :: (w ++ [')']), r2)
      | _ => ([], l)
  | _ => ([], l)

/-- The common tail `/(\d+)/(\d{4})` of both case patterns: the number and
year groups matched at the head of `l`. -/
def numYear (l : List Char) : Option (List Char × List Char) :=
  match l with
  | '/' :: r1 =>
    let n := r1.takeWhile isDigitChar
    if n.isEmpty then none
    else
      match r1.dropWhile isDigitChar with
      | '/' :: r2 =>
        let y := r2.take 4
        if y.length = 4 && y.all isDigitChar then some (n, y) else none
      | _ => none
  | _ => none

/-- The primary case pattern
`([A-Z]+(?:\([A-Z]\))?(?:\.[A-Z]+)?(?:\([A-Za-z]+\))?)/(\d+)/(\d{4})`
matched at the head of `l` (the pattern is deterministic: every quantifier's
greedy choice is forced by the following literal). -/
def casePrimaryAt (l : List Char) : Option CaseM :=
  let u := l.takeWhile isUpperChar
  if u.isEmpty then none
  else
    let p1 := optParenUpper (l.dropWhile isUpperChar)
    let p2 := optDotUpper p1.2
    let p3 := optParenWord p2.2
    let ty := u ++ p1.1 ++ p2.1 ++ p3.1
    match numYear p3.2 with
    | some ny => some (CaseM.mk (ty ++ '/' :: ny.1 ++ '/' :: ny.2) ty ny.1 ny.2)
    | none => none

/-- The fallback case pattern `([A-Z\.\(\)]+)/(\d+)/(\d{4})` matched at the
head of `l`. -/
def caseAltAt (l : List Char) : Option CaseM :=
  let cls := fun c => isUpperChar c || decide (c = '.') || decide (c = '(') || decide (c = ')')
  let u := l.takeWhile cls
  if u.isEmpty then none
  else
    match numYear (l.dropWhile cls) with
    | some ny => some (CaseM.mk (u ++ '/' :: ny.1 ++ '/' :: ny.2) u ny.1 ny.2)
    | none => none

/-- Python's `re.search` scan: try the anchored matcher at each start
position, leftmost first. -/
def searchWith (f : List Char → Option CaseM) : List Char → Option CaseM
  | [] => none
  | c :: t =>
    match f (c :: t) with
    | some m => some m
    | none => searchWith f t

/-- Search (`re.search`) of the primary case pattern. -/
def searchCase (l : List Char) : Option CaseM := searchWith casePrimaryAt l

/-- Search (`re.search`) of the fallback case pattern. -/
def searchCaseAlt (l : List Char) : Option CaseM := searchWith caseAltAt l

/-- The delimiter token splitting petitioner-side from respondent-side text. -/
def versusTok : List Char := str "Versus"

/-- Whether a line of the after-delimiter half contains an advocate keyword
(tested on the uppercased line). -/
def hasAdvKw (l : List Char) : Bool :=
  let u := upperStr l
  containsSub (str "MR.") u || containsSub (str "MRS.") u || containsSub (str "MS.") u ||
    containsSub (str "DR.") u || containsSub (str "ADVOCATE") u || containsSub (str "SC,") u ||
    containsSub (str "GA,") u || containsSub (str "PP,") u

/-- Whether an advocate line carries a respondent-side marker. -/
def isRespAdvLine (l : List Char) : Bool :=
  containsSub (str "(R-") l || containsSub (str "(r-") l ||
    containsSub (str "(R1") l || containsSub (str "(R2") l

/-- The single-pass party/advocate classifier over the after-delimiter lines:
respondent lines are collected only while the advocate flag is unset; the
first keyword line sets the flag for good, and keyword lines go to the
respondent- or petitioner-advocate list by the `(R-` marker.  Returns
(respondent lines, petitioner-advocate lines, respondent-advocate lines). -/
def classifyAfter : Bool → List (List Char) → List (List Char) × List (List Char) × List (List Char)
  | _, [] => ([], [], [])
  | found, l :: rest =>
    if !found && !hasAdvKw l then
      let t := classifyAfter found rest
      (l :: t.1, t.2.1, t.2.2)
    else if hasAdvKw l then
      let t := classifyAfter true rest
      if isRespAdvLine l then (t.1, t.2.1, l :: t.2.2) else (t.1, l :: t.2.1, t.2.2)
    else
      classifyAfter found rest

/-- The non-blank stripped lines of the after-delimiter half of a segment. -/
def afterLines (full : List Char) : List (List Char) :=
  ((splitNl (splitFirst versusTok full).2).map strip).filter (fun l => !l.isEmpty)

/-- The party-info quadruple extracted from one segment. -/
structure PartyInfo where
  petitioner : List Char
  respondent : List Char
  petitioner_advocate : List Char
  respondent_advocate : List Char
deriving DecidableEq

/-- The party/advocate extraction of `parse_gauhati_causelist` on a segment's
joined text: split on `Versus` when present and classify the two halves;
otherwise the whole cleaned text is the petitioner and the other fields stay
sentinel.  The case substring stripped from the petitioner text is the
primary-pattern match (`case_match`), as in the source. -/
def partyOf (full : List Char) : PartyInfo :=
  let pm := searchCase full
  if containsSub versusTok full then
    let parts := splitFirst versusTok full
    let pet0 := subLeadingSr parts.1
    let pet1 :=
      match pm with
      | some m => replaceAll m.g0 pet0
      | none => pet0
    let pls0 := ((splitNl pet1).map strip).filter (fun l => !l.isEmpty)
    let pls := pls0.filter (fun l => !startsWithB (str "WITH") l && !startsWithB (str "in ") l)
    let t := classifyAfter false (afterLines full)
    PartyInfo.mk (strip (joinSp pls))
      (if t.1.isEmpty then naStr else strip (joinSp t.1))
      (if t.2.1.isEmpty then naStr else strip (joinSp t.2.1))
      (if t.2.2.isEmpty then naStr else strip (joinSp t.2.2))
  else
    let pet0 :=
      match pm with
      | some m => strip (replaceAll m.g0 full)
      | none => full
    PartyInfo.mk (strip (subLeadingSr pet0)) naStr naStr naStr

/-- The case-identifier cascade of `parse_gauhati_causelist`: the primary
pattern first, the fallback pattern otherwise; sentinels when neither matches.
Returns (case type, case number, case year). -/
def caseIdOf (full : List Char) : List Char × List Char × List Char :=
  match searchCase full with
  | some m => (m.ty, m.num, m.yr)
  | none =>
    match searchCaseAlt full with
    | some m => (m.ty, m.num, m.yr)
    | none => (naStr, naStr, naStr)

/-- The per-segment fields recovered by the parser. -/
structure CaseFields where
  case_type : List Char
  case_number : List Char
  case_year : List Char
  petitioner : List Char
  respondent : List Char
  petitioner_advocate : List Char
  respondent_advocate : List Char
deriving DecidableEq

/-- All parse-derived fields of one segment's joined text. -/
def extractFields (full : List Char) : CaseFields :=
  CaseFields.mk (caseIdOf full).1 (caseIdOf full).2.1 (caseIdOf full).2.2
    (partyOf full).petitioner (partyOf full).respondent
    (partyOf full).petitioner_advocate (partyOf full).respondent_advocate

/-- The parsing core of `parse_gauhati_causelist` on a document's lines: one
(sequence number, fields) record per recognized segment; the empty list when
no header line exists. -/
def parseLines (lines : List (List Char)) : List (List Char × CaseFields) :=
  (segsOfLines lines).map (fun s => (s.1, extractFields (joinNl s.2)))

/-- The parsing core of `parse_gauhati_causelist` on the document's extracted
text. -/
def parse_gauhati_causelist (allText : List Char) : List (List Char × CaseFields) :=
  parseLines (splitNl allText)

/-- Length of a `\d{1,2}:\d{2}` match at the head of `l` (the hour quantifier
is deterministic: the digit run's length must be 1 or 2 and a colon must
follow it). -/
def hmLen (l : List Char) : Option Nat :=
  let d := l.takeWhile isDigitChar
  if d.length = 1 || d.length = 2 then
    match l.drop d.length with
    | ':' :: a :: b :: _ =>
      if isDigitChar a && isDigitChar b then some (d.length + 3) else none
    | _ => none
  else none

/-- One of `A P a p` (the class `[AP]` under `re.IGNORECASE`). -/
def isAPChar (c : Char) : Bool := c = 'A' || c = 'P' || c = 'a' || c = 'p'

/-- One of `M m`. -/
def isMChar (c : Char) : Bool := c = 'M' || c = 'm'

/-- One of `T t`. -/
def isTChar (c : Char) : Bool := c = 'T' || c = 't'

/-- One of `O o`. -/
def isOChar (c : Char) : Bool := c = 'O' || c = 'o'

/-- Length of a `\s*[AP]M` match at the head of `l` (case-insensitive). -/
def apmLen (l : List Char) : Option Nat :=
  let w := l.takeWhile isSpaceChar
  match l.drop w.length with
  | a :: m :: _ => if isAPChar a && isMChar m then some (w.length + 2) else none
  | _ => none

/-- Length of a match of the time-window pattern
`\d{1,2}:\d{2}\s*[AP]M\s*to\s*\d{1,2}:\d{2}\s*[AP]M` (case-insensitive) at
the head of `l`. -/
def winLen (l : List Char) : Option Nat :=
  match hmLen l with
  | none => none
  | some n1 =>
    match apmLen (l.drop n1) with
    | none => none
    | some n2 =>
      let l2 := l.drop (n1 + n2)
      let w1 := l2.takeWhile isSpaceChar
      match l2.dropWhile isSpaceChar with
      | t :: o :: r3 =>
        if isTChar t && isOChar o then
          let w2 := r3.takeWhile isSpaceChar
          let l4 := r3.dropWhile isSpaceChar
          match hmLen l4 with
          | none => none
          | some n3 =>
            match apmLen (l4.drop n3) with
            | none => none
            | some n4 => some (n1 + n2 + w1.length + 2 + w2.length + n3 + n4)
        else none
      | _ => none

/-- The two adjacent windows of the doubled pattern `(window)\s*(window)`
matched at the head of `l`. -/
def multiAt (l : List Char) : Option (List Char × List Char) :=
  match winLen l with
  | some n1 =>
    let r := l.drop n1
    let r2 := r.dropWhile isSpaceChar
    match winLen r2 with
    | some n2 => some (l.take n1, r2.take n2)
    | none => none
  | none => none

/-- Search (`re.search`) of the single time-window pattern: the leftmost window. -/
def searchWin : List Char → Option (List Char)
  | [] => none
  | c :: t =>
    match winLen (c :: t) with
    | some n => some ((c :: t).take n)
    | none => searchWin t

/-- Search (`re.search`) of the doubled time-window pattern: the leftmost adjacent
pair of windows. -/
def searchMulti : List Char → Option (List Char × List Char)
  | [] => none
  | c :: t =>
    match multiAt (c :: t) with
    | some pr => some pr
    | none => searchMulti t

/-- The time extraction of `extract_header_info`: start from the sentinel,
overwrite with the first single-window match, then overwrite with the
two-window concatenation when an adjacent pair exists. -/
def extract_time_info (text : List Char) : List Char :=
  let t1 :=
    match searchWin text with
    | some w => w
    | none => naStr
  match searchMulti text with
  | some pr => pr.1 ++ ' ' :: pr.2
  | none => t1

/-- Spec-side restatement of the time rule, in the spec's order: an adjacent
pair concatenated space-separated when one exists, else the first window,
else the sentinel. -/
def specTimeInfo (text : List Char) : List Char :=
  match searchMulti text with
  | some pr => pr.1 ++ ' ' :: pr.2
  | none =>
    match searchWin text with
    | some w => w
    | none => naStr

/-- The literal `causelist_` required by the filename date pattern. -/
def clTok : List Char := str "causelist_"

/-- The literal `.pdf` required by the filename date pattern. -/
def pdfTok : List Char := str ".pdf"

/-- Whether `d` has the `\d{2}-\d{2}-\d{4}` shape. -/
def dateShapeB : List Char → Bool
  | [a, b, c, d, e, f, g, h, i, j] =>
    isDigitChar a && isDigitChar b && decide (c = '-') && isDigitChar d && isDigitChar e &&
      decide (f = '-') && isDigitChar g && isDigitChar h && isDigitChar i && isDigitChar j
  | _ => false

/-- The pattern `causelist_(\d{2}-\d{2}-\d{4})_\d+\.pdf` matched at the head
of `l`: the date group, the serial digits and the remainder after `.pdf`. -/
def dateAt (l : List Char) : Option (List Char × List Char × List Char) :=
  if startsWithB clTok l then
    let r := l.drop clTok.length
    let d := r.take 10
    if dateShapeB d then
      match r.drop 10 with
      | '_' :: r2 =>
        let n := r2.takeWhile isDigitChar
        let r3 := r2.dropWhile isDigitChar
        if n.isEmpty then none
        else if startsWithB pdfTok r3 then some (d, n, r3.drop pdfTok.length)
        else none
      | _ => none
    else none
  else none

/-- Search (`re.search`) of the filename date pattern. -/
def searchDate : List Char → Option (List Char × List Char × List Char)
  | [] => none
  | c :: t =>
    match dateAt (c :: t) with
    | some r => some r
    | none => searchDate t

/-- The source's `extract_date_from_filename`: the date group of the first
occurrence of `causelist_DD-MM-YYYY_N.pdf` in the filename, else the
sentinel. -/
def extract_date_from_filename (fn : List Char) : List Char :=
  match searchDate fn with
  | some r => r.1
  | none => naStr

/-- Spec-side model of a pure separator line: a line composed only of dash
characters and whitespace. -/
def specPureSepLine (l : List Char) : Bool :=
  l.all (fun c => decide (c = '-') || isSpaceChar c)

/-- The whole matched substring of whichever case pattern of the cascade
succeeds (primary first, fallback second). -/
def specCascadeG0 (full : List Char) : Option (List Char) :=
  match searchCase full with
  | some m => some m.g0
  | none =>
    match searchCaseAlt full with
    | some m => some m.g0
    | none => none

/-- Spec-side model of the petitioner of a delimiter-free segment: the entire
segment text with the matched case-identifier substring (of whichever cascade
pattern matched) and the leading sequence number removed. -/
def specNoVersusPetitioner (full : List Char) : List Char :=
  strip (subLeadingSr
    (match specCascadeG0 full with
     | some g => strip (replaceAll g full)
     | none => full))

/-- The petitioner computed by the parser's no-`Versus` branch: only the
primary-pattern match (`case_match`) is stripped before the sequence number
is removed. -/
def noVersusPetitioner (full : List Char) : List Char :=
  strip (subLeadingSr
    (match searchCase full with
     | some m => strip (replaceAll m.g0 full)
     | none => full))

/-- The prefix of the after-delimiter lines before the first advocate-keyword
line: exactly the lines the classifier collects as respondent text. -/
def respLinesBeforeKw (full : List Char) : List (List Char) :=
  (afterLines full).takeWhile (fun l => !hasAdvKw l)

/-- The number of record-opening lines (left-trimmed content matching
`^\d+\s`) in a line list. -/
def countStart (ls : List (List Char)) : Nat :=
  ls.countP (fun l => (srMatch (lstrip l)).isSome)

/-! Basic list lemmas used throughout. -/

lemma takeWhile_all_sat {α : Type} (p : α → Bool) (l : List α) :
    (l.takeWhile p).all p = true := by
  induction l with
  | nil => rfl
  | cons a t ih => cases h : p a <;> simp [List.takeWhile_cons, h, ih]

lemma dropWhile_nil_all {α : Type} (p : α → Bool) (l : List α)
    (h : l.dropWhile p = []) : l.all p = true := by
  rw [List.all_eq_true]
  intro x hx
  simpa using List.dropWhile_eq_nil_iff.mp h x hx

lemma dropWhile_head_not {α : Type} (p : α → Bool) (l : List α) (c : α) (t : List α)
    (h : l.dropWhile p = c :: t) : p c = false := by
  induction l with
  | nil => simp [List.dropWhile] at h
  | cons a s ih =>
    cases ha : p a
    · simp [List.dropWhile_cons, ha] at h
      rw [← h.1]; exact ha
    · simp [List.dropWhile_cons, ha] at h
      exact ih h

lemma startsWithB_decomp : ∀ (p l : List Char), startsWithB p l = true → l = p ++ l.drop p.length
  | [], l, _ => by simp
  | a :: as, [], h => by simp [startsWithB] at h
  | a :: as, b :: bs, h => by
    simp only [startsWithB, Bool.and_eq_true, decide_eq_true_eq] at h
    have := startsWithB_decomp as bs h.2
    simp [← h.1, List.length_cons]
    exact this

end Causelist

namespace Causelist

/-! Claim C1 and the C9 concrete example. -/

lemma headerSplit_eq_none (lines : List (List Char))
    (h : lines.all (fun l => !isHeaderLine l) = true) : headerSplit lines = none := by
  induction lines with
  | nil => rfl
  | cons l rest ih =>
    simp only [List.all_cons, Bool.and_eq_true, Bool.not_eq_true'] at h
    simp [headerSplit, h.1]
    exact ih (by simpa using h.2)

/-- Claim C1: for every document whose lines contain no line simultaneously
containing the three column markers `Sr.No`, `Case Number` and `Main Parties`,
parsing returns the empty record sequence. -/
theorem C1_no_header_returns_empty (lines : List (List Char))
    (h : lines.all (fun l => !isHeaderLine l) = true) : parseLines lines = [] := by
  simp [parseLines, segsOfLines, headerSplit_eq_none lines h]

/-- Witness for C1 at a concrete two-line header-free document. -/
theorem C1_no_header_returns_empty_witness :
    ([str "hello", str "1 world"].all (fun l => !isHeaderLine l) = true) ∧
      parseLines [str "hello", str "1 world"] = [] :=
  ⟨by decide, C1_no_header_returns_empty _ (by decide)⟩

lemma collect_snd_suffix (ls : List (List Char)) : ∀ acc, (collect acc ls).2 <:+ ls := by
  induction ls with
  | nil => intro acc; simp [collect]
  | cons l rest ih =>
    intro acc
    simp only [collect]
    split_ifs with h1 h2 h3 h4
    · exact List.suffix_refl _
    · exact List.suffix_refl _
    · exact (ih acc).trans (List.suffix_cons l rest)
    · exact (ih (acc ++ [l])).trans (List.suffix_cons l rest)
    · exact (ih acc).trans (List.suffix_cons l rest)

lemma collect_snd_countStart (ls : List (List Char)) :
    ∀ acc, countStart (collect acc ls).2 = countStart ls := by
  induction ls with
  | nil => intro acc; simp [collect]
  | cons l rest ih =>
    intro acc
    simp only [collect]
    split_ifs with h1 h2 h3 h4
    · rfl
    · rfl
    · rw [ih acc]
      simp [countStart, List.countP_cons, h1]
    · rw [ih (acc ++ [l])]
      simp [countStart, List.countP_cons, h1]
    · rw [ih acc]
      simp [countStart, List.countP_cons, h1]

lemma segLoop_length : ∀ (fuel : Nat) (ls : List (List Char)), ls.length ≤ fuel →
    (segLoop fuel ls).length = countStart ls := by
  intro fuel
  induction fuel with
  | zero =>
    intro ls h
    have hnil : ls = [] := List.length_eq_zero.mp (Nat.le_zero.mp h)
    subst hnil
    rfl
  | succ fuel ih =>
    intro ls h
    cases ls with
    | nil => rfl
    | cons l rest =>
      simp only [segLoop]
      cases hm : srMatch (lstrip l) with
      | none =>
        rw [ih rest (Nat.le_of_succ_le_succ (by simpa using h))]
        simp [countStart, List.countP_cons, hm]
      | some sr =>
        have hrem : (collect [l] rest).2.length ≤ fuel :=
          le_trans ((collect_snd_suffix rest [l]).length_le)
            (Nat.le_of_succ_le_succ (by simpa using h))
        rw [List.length_cons, ih _ hrem, collect_snd_countStart rest [l]]
        simp [countStart, List.countP_cons, hm]

/-- Claim C2: for every document with a header line, the number of returned
records equals the number of lines, strictly after the header and the
initially skipped separator lines, whose left-trimmed content starts with
digits followed by whitespace (no such line is ever consumed as a
continuation line, so none is excluded from the count). -/
theorem C2_record_count_eq_start_lines (lines after : List (List Char))
    (h : headerSplit lines = some after) :
    (parseLines lines).length = countStart (skipSeps after) := by
  simp only [parseLines, segsOfLines, h, List.length_map]
  exact segLoop_length _ _ (le_refl _)

/-- Witness for C2 on a concrete five-line document with two records. -/
theorem C2_record_count_eq_start_lines_witness :
    headerSplit [str "x", str "Sr.No Case Number Main Parties", str "----", str "1 A",
        str "cont", str "2 B"] =
      some [str "----", str "1 A", str "cont", str "2 B"] ∧
    (parseLines [str "x", str "Sr.No Case Number Main Parties", str "----", str "1 A",
        str "cont", str "2 B"]).length =
      countStart (skipSeps [str "----", str "1 A", str "cont", str "2 B"]) :=
  ⟨by decide, C2_record_count_eq_start_lines _ _ (by decide)⟩

/-- Claim C8 (corrected): the initial skip drops exactly the lines containing
the substring `---`, however much other text they hold; a dash-and-whitespace
line without three consecutive dashes is not dropped. -/
theorem C8_amended_skip_dash_lines (lines : List (List Char)) :
    ∃ pre, lines = pre ++ skipSeps lines ∧
      pre.all (fun l => containsSub sepTok l) = true ∧
      ((skipSeps lines).take 1).all (fun l => !containsSub sepTok l) = true := by
  refine ⟨lines.takeWhile (fun l => containsSub sepTok l), ?_, takeWhile_all_sat _ _, ?_⟩
  · rw [skipSeps]
    exact (List.takeWhile_append_dropWhile _ lines).symm
  · cases hd : skipSeps lines with
    | nil => simp
    | cons c t =>
      rw [skipSeps] at hd
      have hc := dropWhile_head_not _ lines c t hd
      simp [hd, hc]

/-- Counterexample to claim C8 as stated: a line that is not composed only of
dashes and whitespace (it even matches the record-start rule) is skipped by
the initial step, observably losing a record, while a pure dash-and-space
line without three consecutive dashes is not skipped. -/
theorem C8_counterexample_dash_containment :
    (skipSeps [str "1 --- x", str "2 B/9/2024 Y"] = [str "2 B/9/2024 Y"] ∧
      specPureSepLine (str "1 --- x") = false ∧
      (srMatch (lstrip (str "1 --- x"))).isSome = true ∧
      (parseLines [str "Sr.No  Case Number  Main Parties", str "1 --- x",
        str "2 B/9/2024 Y"]).length = 1) ∧
    (skipSeps [str "- -", str "2 B/9/2024 Y"] = [str "- -", str "2 B/9/2024 Y"] ∧
      specPureSepLine (str "- -") = true) := by
  decide

lemma classifyAfter_true_fst : ∀ ls, (classifyAfter true ls).1 = [] := by
  intro ls
  induction ls with
  | nil => rfl
  | cons l rest ih =>
    simp only [classifyAfter, Bool.not_true, Bool.false_and, Bool.false_eq_true, if_false]
    cases h : hasAdvKw l
    · simp [h, ih]
    · simp only [h, if_true]
      split_ifs <;> simpa using ih

lemma classifyAfter_false_fst : ∀ ls, (classifyAfter false ls).1 =
    ls.takeWhile (fun l => !hasAdvKw l) := by
  intro ls
  induction ls with
  | nil => rfl
  | cons l rest ih =>
    simp only [classifyAfter, Bool.not_false, Bool.true_and]
    cases h : hasAdvKw l
    · simp [h, List.takeWhile_cons, ih]
    · simp only [h, Bool.not_true, Bool.false_eq_true, if_false, if_true, List.takeWhile_cons]
      split_ifs <;> simp [classifyAfter_true_fst]

/-- Claim C3: with the delimiter present, the returned respondent is built
from exactly the after-delimiter lines preceding the first advocate-keyword
line (sentinel when there are none), every such line is keyword-free, and
once the advocate flag is set the classifier never adds a line to the
respondent accumulator. -/
theorem C3_respondent_before_first_advocate (full : List Char)
    (h : containsSub versusTok full = true) :
    (extractFields full).respondent =
      (if (respLinesBeforeKw full).isEmpty then naStr else strip (joinSp (respLinesBeforeKw full))) ∧
    (respLinesBeforeKw full).all (fun l => !hasAdvKw l) = true ∧
    (classifyAfter true (afterLines full)).1 = [] := by
  refine ⟨?_, takeWhile_all_sat _ _, classifyAfter_true_fst _⟩
  show (partyOf full).respondent = _
  rw [partyOf]
  simp only [h, if_true, classifyAfter_false_fst]
  rfl

/-- Witness for C3 on a segment with two respondent lines, one advocate line
and one trailing dropped line. -/
theorem C3_respondent_before_first_advocate_witness :
    containsSub versusTok (str "1 A/2/2024 P\nVersus\nState\nAnother\nMr. X, Advocate\nTrailing") = true ∧
    ((extractFields (str "1 A/2/2024 P\nVersus\nState\nAnother\nMr. X, Advocate\nTrailing")).respondent =
      (if (respLinesBeforeKw (str "1 A/2/2024 P\nVersus\nState\nAnother\nMr. X, Advocate\nTrailing")).isEmpty
        then naStr
        else strip (joinSp (respLinesBeforeKw (str "1 A/2/2024 P\nVersus\nState\nAnother\nMr. X, Advocate\nTrailing")))) ∧
    (respLinesBeforeKw (str "1 A/2/2024 P\nVersus\nState\nAnother\nMr. X, Advocate\nTrailing")).all
        (fun l => !hasAdvKw l) = true ∧
    (classifyAfter true (afterLines (str "1 A/2/2024 P\nVersus\nState\nAnother\nMr. X, Advocate\nTrailing"))).1 = []) :=
  ⟨by decide, C3_respondent_before_first_advocate _ (by decide)⟩

/-- Counterexample to claim C4 as stated: on a delimiter-free segment whose
case identifier is found only by the fallback pattern, the matched
case-identifier substring is not removed from the petitioner text. -/
theorem C4_counterexample_fallback_match_not_stripped :
    containsSub versusTok (str "1 AB./12/2024 John") = false ∧
    (extractFields (str "1 AB./12/2024 John")).case_number = str "12" ∧
    specNoVersusPetitioner (str "1 AB./12/2024 John") = str "John" ∧
    (extractFields (str "1 AB./12/2024 John")).petitioner = str "AB./12/2024 John" ∧
    (extractFields (str "1 AB./12/2024 John")).petitioner ≠
      specNoVersusPetitioner (str "1 AB./12/2024 John") := by
  decide

/-- Claim C4 (corrected): on a delimiter-free segment the respondent and both
advocate fields are the sentinel, and the petitioner is the whole segment
text with the primary-pattern case match (when there is one) and the leading
sequence number removed; a fallback-pattern case match is not removed. -/
theorem C4_amended_no_versus_sentinels (full : List Char)
    (h : containsSub versusTok full = false) :
    (extractFields full).respondent = naStr ∧
    (extractFields full).petitioner_advocate = naStr ∧
    (extractFields full).respondent_advocate = naStr ∧
    (extractFields full).petitioner = noVersusPetitioner full := by
  have hp : partyOf full = PartyInfo.mk (noVersusPetitioner full) naStr naStr naStr := by
    rw [partyOf]
    simp only [h, Bool.false_eq_true, if_false]
    rfl
  exact ⟨by rw [show (extractFields full).respondent = (partyOf full).respondent from rfl, hp],
    by rw [show (extractFields full).petitioner_advocate = (partyOf full).petitioner_advocate from rfl, hp],
    by rw [show (extractFields full).respondent_advocate = (partyOf full).respondent_advocate from rfl, hp],
    by rw [show (extractFields full).petitioner = (partyOf full).petitioner from rfl, hp]⟩

/-- Witness for the amended C4 on a concrete delimiter-free segment. -/
theorem C4_amended_no_versus_sentinels_witness :
    containsSub versusTok (str "7 Plain Name") = false ∧
    ((extractFields (str "7 Plain Name")).respondent = naStr ∧
    (extractFields (str "7 Plain Name")).petitioner_advocate = naStr ∧
    (extractFields (str "7 Plain Name")).respondent_advocate = naStr ∧
    (extractFields (str "7 Plain Name")).petitioner = noVersusPetitioner (str "7 Plain Name")) :=
  ⟨by decide, C4_amended_no_versus_sentinels _ (by decide)⟩

lemma numYear_props (l n y : List Char) (h : numYear l = some (n, y)) :
    n ≠ [] ∧ n.all isDigitChar = true ∧ y.length = 4 ∧ y.all isDigitChar = true := by
  simp only [numYear] at h
  split at h
  case _ r1 =>
    by_cases h1 : (r1.takeWhile isDigitChar).isEmpty = true
    · simp [h1] at h
    · rw [if_neg h1] at h
      split at h
      case _ r2 =>
        split_ifs at h with h2
        simp only [Option.some.injEq, Prod.mk.injEq] at h
        obtain ⟨hn, hy⟩ := h
        subst hn; subst hy
        simp only [Bool.and_eq_true, decide_eq_true_eq] at h2
        refine ⟨?_, takeWhile_all_sat _ _, h2.1, h2.2⟩
        intro hnil
        rw [hnil] at h1
        exact h1 rfl
      case _ => exact absurd h (by simp)
  case _ => exact absurd h (by simp)

lemma casePrimaryAt_props (l : List Char) (m : CaseM) (h : casePrimaryAt l = some m) :
    m.num ≠ [] ∧ m.num.all isDigitChar = true ∧ m.yr.length = 4 ∧
      m.yr.all isDigitChar = true := by
  simp only [casePrimaryAt] at h
  split_ifs at h with h1
  split at h
  case _ ny heq =>
    simp only [Option.some.injEq] at h
    subst h
    exact numYear_props _ ny.1 ny.2 heq
  case _ => exact absurd h (by simp)

lemma caseAltAt_props (l : List Char) (m : CaseM) (h : caseAltAt l = some m) :
    m.num ≠ [] ∧ m.num.all isDigitChar = true ∧ m.yr.length = 4 ∧
      m.yr.all isDigitChar = true := by
  simp only [caseAltAt] at h
  split_ifs at h with h1
  split at h
  case _ ny heq =>
    simp only [Option.some.injEq] at h
    subst h
    exact numYear_props _ ny.1 ny.2 heq
  case _ => exact absurd h (by simp)

lemma searchWith_props (f : List Char → Option CaseM) (P : CaseM → Prop)
    (hf : ∀ l m, f l = some m → P m) : ∀ l m, searchWith f l = some m → P m := by
  intro l
  induction l with
  | nil => intro m h; simp [searchWith] at h
  | cons c t ih =>
    intro m h
    simp only [searchWith] at h
    split at h
    case _ m' heq =>
      cases h
      exact hf _ _ heq
    case _ => exact ih m h

/-- Claim C5: whenever the extracted case number is not the sentinel, it is a
non-empty all-digit string and the case year is exactly four digits — for
both patterns of the cascade. -/
theorem C5_case_number_digits_year4 (full : List Char)
    (h : (extractFields full).case_number ≠ naStr) :
    (extractFields full).case_number ≠ [] ∧
    (extractFields full).case_number.all isDigitChar = true ∧
    (extractFields full).case_year.length = 4 ∧
    (extractFields full).case_year.all isDigitChar = true := by
  have hn : (extractFields full).case_number = (caseIdOf full).2.1 := rfl
  have hy : (extractFields full).case_year = (caseIdOf full).2.2 := rfl
  rw [hn] at h ⊢
  rw [hy]
  unfold caseIdOf at h ⊢
  cases hm : searchCase full with
  | some m =>
    simp only [hm]
    exact searchWith_props casePrimaryAt _ casePrimaryAt_props full m hm
  | none =>
    cases ha : searchCaseAlt full with
    | some m =>
      simp only [hm, ha]
      exact searchWith_props caseAltAt _ caseAltAt_props full m ha
    | none =>
      rw [hm, ha] at h
      exact absurd rfl h

/-- Witness for C5 on a concrete fallback-pattern-only segment text. -/
theorem C5_case_number_digits_year4_witness :
    (extractFields (str "AB./12/2024")).case_number ≠ naStr ∧
    ((extractFields (str "AB./12/2024")).case_number ≠ [] ∧
    (extractFields (str "AB./12/2024")).case_number.all isDigitChar = true ∧
    (extractFields (str "AB./12/2024")).case_year.length = 4 ∧
    (extractFields (str "AB./12/2024")).case_year.all isDigitChar = true) :=
  ⟨by decide, C5_case_number_digits_year4 _ (by decide)⟩

lemma multiAt_sound (l a b : List Char) (h : multiAt l = some (a, b)) :
    ∃ g r, l = a ++ g ++ b ++ r ∧ g.all isSpaceChar = true := by
  simp only [multiAt] at h
  split at h
  case _ n1 heq1 =>
    split at h
    case _ n2 heq2 =>
      simp only [Option.some.injEq, Prod.mk.injEq] at h
      obtain ⟨ha, hb⟩ := h
      subst ha; subst hb
      refine ⟨(l.drop n1).takeWhile isSpaceChar,
        ((l.drop n1).dropWhile isSpaceChar).drop n2, ?_, takeWhile_all_sat _ _⟩
      calc l = l.take n1 ++ l.drop n1 := (List.take_append_drop n1 l).symm
        _ = l.take n1 ++ ((l.drop n1).takeWhile isSpaceChar ++
              (l.drop n1).dropWhile isSpaceChar) := by
            rw [List.takeWhile_append_dropWhile]
        _ = l.take n1 ++ ((l.drop n1).takeWhile isSpaceChar ++
              (((l.drop n1).dropWhile isSpaceChar).take n2 ++
                ((l.drop n1).dropWhile isSpaceChar).drop n2)) := by
            rw [List.take_append_drop]
        _ = l.take n1 ++ (l.drop n1).takeWhile isSpaceChar ++
              ((l.drop n1).dropWhile isSpaceChar).take n2 ++
              ((l.drop n1).dropWhile isSpaceChar).drop n2 := by
            simp [List.append_assoc]
    case _ => exact absurd h (by simp)
  case _ => exact absurd h (by simp)

lemma searchWin_sound : ∀ l w, searchWin l = some w → ∃ p r, l = p ++ w ++ r := by
  intro l
  induction l with
  | nil => intro w h; simp [searchWin] at h
  | cons c t ih =>
    intro w h
    simp only [searchWin] at h
    split at h
    case _ n heq =>
      simp only [Option.some.injEq] at h
      subst h
      exact ⟨[], (c :: t).drop n, by simp [List.take_append_drop]⟩
    case _ =>
      obtain ⟨p, r, hp⟩ := ih w h
      exact ⟨c :: p, r, by simp [hp]⟩

lemma searchMulti_sound : ∀ l a b, searchMulti l = some (a, b) →
    ∃ p g r, l = p ++ a ++ g ++ b ++ r ∧ g.all isSpaceChar = true := by
  intro l
  induction l with
  | nil => intro a b h; simp [searchMulti] at h
  | cons c t ih =>
    intro a b h
    simp only [searchMulti] at h
    split at h
    case _ pr heq =>
      simp only [Option.some.injEq] at h
      subst h
      obtain ⟨g, r, hd, hg⟩ := multiAt_sound (c :: t) a b heq
      exact ⟨[], g, r, by simpa using hd, hg⟩
    case _ =>
      obtain ⟨p, g, r, hd, hg⟩ := ih a b h
      exact ⟨c :: p, g, r, by simp [hd], hg⟩

/-- Claim C6: the extracted time equals the spec's case analysis (adjacent
pair concatenated space-separated when one exists, else the first window,
else the sentinel), and a found pair really occurs adjacently — separated
only by whitespace — in the text, in document order. -/
theorem C6_time_window_selection (text : List Char) :
    extract_time_info text = specTimeInfo text ∧
    (match searchMulti text with
     | some pr => ∃ p g r, text = p ++ pr.1 ++ g ++ pr.2 ++ r ∧ g.all isSpaceChar = true
     | none =>
       match searchWin text with
       | some w => ∃ p r, text = p ++ w ++ r
       | none => extract_time_info text = naStr) := by
  constructor
  · unfold extract_time_info specTimeInfo
    cases hm : searchMulti text <;> cases hw : searchWin text <;> simp [hm, hw]
  · cases hm : searchMulti text with
    | some pr =>
      simp only [hm]
      exact searchMulti_sound text pr.1 pr.2 hm
    | none =>
      cases hw : searchWin text with
      | some w =>
        simp only [hm, hw]
        exact searchWin_sound text w hw
      | none =>
        simp [extract_time_info, hm, hw]

lemma dateAt_sound (l d n s : List Char) (h : dateAt l = some (d, n, s)) :
    l = clTok ++ d ++ '_' :: n ++ pdfTok ++ s ∧ dateShapeB d = true ∧ n ≠ [] ∧
      n.all isDigitChar = true := by
  simp only [dateAt] at h
  split_ifs at h with h1 h2
  split at h
  case _ r2 heq =>
    split_ifs at h with h3 h4
    simp only [Option.some.injEq, Prod.mk.injEq] at h
    obtain ⟨hd, hn, hs⟩ := h
    subst hd; subst hn; subst hs
    refine ⟨?_, h2, ?_, takeWhile_all_sat _ _⟩
    · calc l = clTok ++ l.drop clTok.length := startsWithB_decomp _ _ h1
        _ = clTok ++ ((l.drop clTok.length).take 10 ++ (l.drop clTok.length).drop 10) := by
            rw [List.take_append_drop]
        _ = clTok ++ ((l.drop clTok.length).take 10 ++ ('_' :: r2)) := by rw [heq]
        _ = clTok ++ ((l.drop clTok.length).take 10 ++ ('_' ::
              (r2.takeWhile isDigitChar ++ r2.dropWhile isDigitChar))) := by
            rw [List.takeWhile_append_dropWhile]
        _ = clTok ++ ((l.drop clTok.length).take 10 ++ ('_' ::
              (r2.takeWhile isDigitChar ++ (pdfTok ++
                (r2.dropWhile isDigitChar).drop pdfTok.length)))) := by
            rw [← startsWithB_decomp _ _ h4]
        _ = clTok ++ (l.drop clTok.length).take 10 ++ '_' :: r2.takeWhile isDigitChar ++
              pdfTok ++ (r2.dropWhile isDigitChar).drop pdfTok.length := by
            simp [List.append_assoc]
    · intro hnil
      rw [hnil] at h3
      exact h3 rfl
  case _ => exact absurd h (by simp)

lemma searchDate_sound : ∀ fn d n s, searchDate fn = some (d, n, s) →
    (∃ p, fn = p ++ clTok ++ d ++ '_' :: n ++ pdfTok ++ s) ∧ dateShapeB d = true ∧
      n ≠ [] ∧ n.all isDigitChar = true := by
  intro fn
  induction fn with
  | nil => intro d n s h; simp [searchDate] at h
  | cons c t ih =>
    intro d n s h
    simp only [searchDate] at h
    split at h
    case _ r heq =>
      simp only [Option.some.injEq] at h
      subst h
      obtain ⟨hd, hs, hn, hdig⟩ := dateAt_sound (c :: t) d n s heq
      exact ⟨⟨[], by simpa [List.append_assoc] using hd⟩, hs, hn, hdig⟩
    case _ =>
      obtain ⟨⟨p, hp⟩, hs, hn, hdig⟩ := ih d n s h
      exact ⟨⟨c :: p, by simp [hp]⟩, hs, hn, hdig⟩

/-- Claim C7 (corrected): a non-sentinel cause date comes from an occurrence
of the literal pattern `causelist_DD-MM-YYYY_N.pdf` inside the filename, and
the two examples of the claim hold; filenames of the claimed generic shape
with another prefix or extension yield the sentinel. -/
theorem C7_amended_date_from_filename (fn : List Char) :
    (extract_date_from_filename fn = naStr ∨
      ∃ p n s, fn = p ++ clTok ++ extract_date_from_filename fn ++ '_' :: n ++ pdfTok ++ s ∧
        dateShapeB (extract_date_from_filename fn) = true ∧ n ≠ [] ∧
        n.all isDigitChar = true) ∧
    extract_date_from_filename (str "causelist_15-09-2025_7.pdf") = str "15-09-2025" ∧
    extract_date_from_filename (str "report.pdf") = naStr := by
  refine ⟨?_, by decide, by decide⟩
  cases hd : searchDate fn with
  | none =>
    left
    simp [extract_date_from_filename, hd]
  | some t =>
    right
    obtain ⟨⟨p, hp⟩, hs, hn, hdig⟩ := searchDate_sound fn t.1 t.2.1 t.2.2 hd
    have he : extract_date_from_filename fn = t.1 := by
      simp [extract_date_from_filename, hd]
    exact ⟨p, t.2.1, t.2.2, by rw [he]; exact hp, by rw [he]; exact hs, hn, hdig⟩

/-- Counterexample to claim C7 as stated: `report_15-09-2025_3.txt` matches
the claimed shape `<anything>_<DD-MM-YYYY>_<integer>.<ext>` with date
`15-09-2025`, yet extraction yields the sentinel, because the source pattern
demands the literal `causelist_` prefix and `.pdf` extension. -/
theorem C7_counterexample_shape_without_causelist_prefix :
    (∃ a d n e, str "report_15-09-2025_3.txt" = a ++ '_' :: d ++ '_' :: n ++ '.' :: e ∧
      dateShapeB d = true ∧ n ≠ [] ∧ n.all isDigitChar = true ∧ e ≠ [] ∧
      d = str "15-09-2025") ∧
    extract_date_from_filename (str "report_15-09-2025_3.txt") = naStr ∧
    naStr ≠ str "15-09-2025" :=
  ⟨⟨str "report", str "15-09-2025", str "3", str "txt", by decide, by decide, by decide,
    by decide, by decide, rfl⟩, by decide, by decide⟩

lemma digit_not_space (c : Char) (h : isDigitChar c = true) : isSpaceChar c = false := by
  simp only [isDigitChar, Bool.and_eq_true, decide_eq_true_eq] at h
  cases hs : isSpaceChar c
  · rfl
  · exfalso
    simp only [isSpaceChar, Bool.or_eq_true, decide_eq_true_eq] at hs
    omega

lemma srMatch_strip (l : List Char) (h : (srMatch (lstrip l)).isSome = true) :
    (strip l).isEmpty = false := by
  simp only [srMatch] at h
  split_ifs at h with h1
  · simp at h
  · cases hls : lstrip l with
    | nil => rw [hls] at h1; exact absurd rfl h1
    | cons c t =>
      have hc : isDigitChar c = true := by
        cases hdc : isDigitChar c
        · rw [hls, List.takeWhile_cons, hdc] at h1
          exact absurd rfl h1
        · rfl
      show (rstrip (lstrip l)).isEmpty = false
      rw [hls]
      cases hr : (rstrip (c :: t)).isEmpty
      · rfl
      · exfalso
        rw [rstrip] at hr
        have hnil : ((c :: t).reverse.dropWhile isSpaceChar) = [] := by
          cases hx : (c :: t).reverse.dropWhile isSpaceChar with
          | nil => rfl
          | cons a b => rw [hx] at hr; simp at hr
        have hall := dropWhile_nil_all isSpaceChar _ hnil
        rw [List.all_eq_true] at hall
        have hcs := hall c (by simp)
        rw [digit_not_space c hc] at hcs
        exact Bool.false_ne_true hcs

lemma splitNl_ne_nil : ∀ t : List Char, splitNl t ≠ [] := by
  intro t
  induction t with
  | nil => simp [splitNl]
  | cons c t ih =>
    simp only [splitNl]
    split_ifs
    · simp
    · split <;> simp

lemma splitNl_no_nl : ∀ (t : List Char) (p : List Char), p ∈ splitNl t → '\n' ∉ p := by
  intro t
  induction t with
  | nil =>
    intro p hp
    simp [splitNl] at hp
    subst hp
    simp
  | cons c t ih =>
    intro p hp
    simp only [splitNl] at hp
    by_cases hc : c = '\n'
    · rw [if_pos hc] at hp
      rcases List.mem_cons.mp hp with h | h
      · subst h; simp
      · exact ih p h
    · rw [if_neg hc] at hp
      cases hsp : splitNl t with
      | nil => exact absurd hsp (splitNl_ne_nil t)
      | cons hh rr =>
        rw [hsp] at hp
        rcases List.mem_cons.mp hp with h | h
        · subst h
          intro hmem
          rcases List.mem_cons.mp hmem with h' | h'
          · exact hc h'.symm
          · exact ih hh (by rw [hsp]; exact List.mem_cons_self hh rr) h'
        · exact ih p (by rw [hsp]; exact List.mem_cons_of_mem hh h)

lemma splitNl_of_no_nl : ∀ l : List Char, '\n' ∉ l → splitNl l = [l] := by
  intro l
  induction l with
  | nil => intro _; rfl
  | cons c t ih =>
    intro h
    have hc : ¬(c = '\n') := fun e => h (by rw [e]; exact List.mem_cons_self _ _)
    simp only [splitNl, if_neg hc]
    rw [ih (fun hm => h (List.mem_cons_of_mem c hm))]

lemma splitNl_append : ∀ (l r : List Char), '\n' ∉ l →
    splitNl (l ++ '\n' :: r) = l :: splitNl r := by
  intro l
  induction l with
  | nil => intro r _; simp [splitNl]
  | cons c t ih =>
    intro r h
    have hc : ¬(c = '\n') := fun e => h (by rw [e]; exact List.mem_cons_self _ _)
    simp only [List.cons_append, splitNl, if_neg hc, List.append_eq]
    rw [ih r (fun hm => h (List.mem_cons_of_mem c hm))]

lemma joinNl_splitNl : ∀ ls : List (List Char), ls ≠ [] → (∀ l ∈ ls, '\n' ∉ l) →
    splitNl (joinNl ls) = ls := by
  intro ls
  induction ls with
  | nil => intro h _; exact absurd rfl h
  | cons l ls ih =>
    intro _ hall
    cases ls with
    | nil => exact splitNl_of_no_nl l (hall l (List.mem_cons_self _ _))
    | cons l2 ls2 =>
      rw [show joinNl (l :: l2 :: ls2) = l ++ '\n' :: joinNl (l2 :: ls2) from rfl]
      rw [splitNl_append l _ (hall l (List.mem_cons_self _ _))]
      rw [ih (by simp) (fun x hx => hall x (List.mem_cons_of_mem l hx))]

lemma collect_fst_decomp : ∀ (ls : List (List Char)) (acc : List (List Char)), ∃ ex,
    (collect acc ls).1 = acc ++ ex ∧ ∀ l ∈ ex, (strip l).isEmpty = false ∧ l ∈ ls := by
  intro ls
  induction ls with
  | nil => intro acc; exact ⟨[], by simp [collect], by simp⟩
  | cons l rest ih =>
    intro acc
    simp only [collect]
    split_ifs with h1 h2 h3 h4
    · exact ⟨[], by simp, by simp⟩
    · exact ⟨[], by simp, by simp⟩
    · obtain ⟨ex, he, hp⟩ := ih acc
      exact ⟨ex, he, fun x hx => ⟨(hp x hx).1, List.mem_cons_of_mem l (hp x hx).2⟩⟩
    · obtain ⟨ex, he, hp⟩ := ih (acc ++ [l])
      refine ⟨l :: ex, by rw [he]; simp, ?_⟩
      intro x hx
      rcases List.mem_cons.mp hx with h | h
      · subst h
        exact ⟨by simpa using h4, List.mem_cons_self _ _⟩
      · exact ⟨(hp x h).1, List.mem_cons_of_mem l (hp x h).2⟩
    · obtain ⟨ex, he, hp⟩ := ih acc
      exact ⟨ex, he, fun x hx => ⟨(hp x hx).1, List.mem_cons_of_mem l (hp x hx).2⟩⟩

lemma segLoop_segs : ∀ (fuel : Nat) (ls : List (List Char)) (s), s ∈ segLoop fuel ls →
    ∃ l0 ex, s.2 = l0 :: ex ∧ (srMatch (lstrip l0)).isSome = true ∧ l0 ∈ ls ∧
      ∀ l ∈ ex, (strip l).isEmpty = false ∧ l ∈ ls := by
  intro fuel
  induction fuel with
  | zero => intro ls s hs; simp [segLoop] at hs
  | succ fuel ih =>
    intro ls s hs
    cases ls with
    | nil => simp [segLoop] at hs
    | cons l rest =>
      simp only [segLoop] at hs
      cases hm : srMatch (lstrip l) with
      | none =>
        rw [hm] at hs
        obtain ⟨l0, ex, h1, h2, h3, h4⟩ := ih rest s hs
        exact ⟨l0, ex, h1, h2, List.mem_cons_of_mem l h3,
          fun x hx => ⟨(h4 x hx).1, List.mem_cons_of_mem l (h4 x hx).2⟩⟩
      | some sr =>
        rw [hm] at hs
        rcases List.mem_cons.mp hs with h | h
        · obtain ⟨ex, he, hp⟩ := collect_fst_decomp rest [l]
          refine ⟨l, ex, ?_, by rw [hm]; rfl, List.mem_cons_self _ _, ?_⟩
          · rw [h]
            show (collect [l] rest).1 = l :: ex
            rw [he]
            rfl
          · intro x hx
            exact ⟨(hp x hx).1, List.mem_cons_of_mem l (hp x hx).2⟩
        · obtain ⟨l0, ex, h1, h2, h3, h4⟩ := ih (collect [l] rest).2 s h
          have hsub := (collect_snd_suffix rest [l]).subset
          exact ⟨l0, ex, h1, h2, List.mem_cons_of_mem l (hsub h3),
            fun x hx => ⟨(h4 x hx).1, List.mem_cons_of_mem l (hsub (h4 x hx).2)⟩⟩

lemma headerSplit_mem : ∀ (lines after : List (List Char)), headerSplit lines = some after →
    ∀ l ∈ after, l ∈ lines := by
  intro lines
  induction lines with
  | nil => intro after h; simp [headerSplit] at h
  | cons x rest ih =>
    intro after h
    simp only [headerSplit] at h
    split_ifs at h with hx
    · injection h with h
      subst h
      intro l hl
      exact List.mem_cons_of_mem x hl
    · intro l hl
      exact List.mem_cons_of_mem x (ih after h l hl)

lemma skipSeps_subset (ls : List (List Char)) : ∀ l ∈ skipSeps ls, l ∈ ls := by
  intro l hl
  rw [← List.takeWhile_append_dropWhile (fun l => containsSub sepTok l) ls]
  exact List.mem_append_right _ hl

/-- Claim C10: every segment the segmenter produces opens with a line
matching the leading-integer rule, and its joined text splits back into lines
none of which is blank or whitespace-only: blank lines inside a record block
are dropped, never appended. -/
theorem C10_segments_have_no_blank_lines (text : List Char) :
    (segsOfLines (splitNl text)).all
      (fun s =>
        (match s.2 with
         | l :: _ => (srMatch (lstrip l)).isSome
         | [] => false) &&
        (splitNl (joinNl s.2)).all (fun p => !(strip p).isEmpty)) = true := by
  rw [List.all_eq_true]
  intro s hs
  rw [segsOfLines] at hs
  cases hh : headerSplit (splitNl text) with
  | none => rw [hh] at hs; simp at hs
  | some after =>
    rw [hh] at hs
    obtain ⟨l0, ex, h1, h2, h3, h4⟩ := segLoop_segs _ _ s hs
    have hmemlines : ∀ l ∈ s.2, l ∈ splitNl text := by
      intro l hl
      rw [h1] at hl
      rcases List.mem_cons.mp hl with h | h
      · subst h
        exact headerSplit_mem _ _ hh l (skipSeps_subset _ l h3)
      · exact headerSplit_mem _ _ hh l (skipSeps_subset _ l (h4 l h).2)
    have hnl : ∀ l ∈ s.2, '\n' ∉ l := fun l hl => splitNl_no_nl text l (hmemlines l hl)
    have hjoin : splitNl (joinNl s.2) = s.2 := by
      apply joinNl_splitNl s.2 _ hnl
      rw [h1]
      simp
    rw [Bool.and_eq_true]
    constructor
    · rw [h1]
      exact h2
    · rw [hjoin, List.all_eq_true]
      intro p hp
      rw [h1] at hp
      rcases List.mem_cons.mp hp with h | h
      · subst h
        simp [srMatch_strip p h2]
      · simp [(h4 p h).1]

/-- Claim C9: the worked example segment is extracted field by field as the
spec states. -/
theorem C9_example_segment_extraction :
    extractFields (str "1  WP(C)/123/2024\nJohn Doe\nVersus\nState of Assam\nMr. A.B. Sharma, Advocate") =
      CaseFields.mk (str "WP(C)") (str "123") (str "2024") (str "John Doe")
        (str "State of Assam") (str "Mr. A.B. Sharma, Advocate") naStr := by
  decide

end Causelist
